import Mathlib

/-!
Verification of the behavioural-log processing core of `bin/dm-proc-ea.py`.

The Python source is shallowly embedded: each parsed log line becomes an
`Event` record, the three typed collections (`Picture`, `Response`, `Video`)
become `List Event`, numpy float arithmetic is carried out over `ℚ`, and
every runtime failure path of the source (numpy parse errors, 0-d array
indexing, `IndexError`, `ValueError`) is made explicit through
`Except ParseErr`.
-/

deriving instance DecidableEq for Except

namespace DmProcEa

/-- One decoded log line.  The seven fields shared by the `Picture`,
`Response` and `Video` record layouts of `log_parser` (the extra six
Picture/Video columns — `duration`, `uncertainty2`, `reqtime`,
`reqduration`, `stimtype`, `pairindex` — are never read by the core
pipeline and are omitted). -/
structure Event where
  subject : String
  trial : Int
  eventtype : String
  code : String
  time : Int
  ttime : Int
  uncertainty1 : Int
deriving DecidableEq, Repr

/-- The runtime failure modes of the Python pipeline. -/
inductive ParseErr where
  /-- `np.genfromtxt` raised on an input with no data rows. -/
  | emptyData
  /-- indexing a 0-d array (a single-row `np.genfromtxt` result) raised. -/
  | zeroDimIndex
  /-- the explicit `raise ValueError` for a log without an `MRI_start` entry. -/
  | missingAnchor
  /-- an out-of-range list index raised `IndexError`. -/
  | indexError
  /-- `int()` of a non-digit string raised `ValueError`. -/
  | valueError
  /-- `np.linspace` raised on a negative requested sample count. -/
  | negLinspace
deriving DecidableEq, Repr

/-! ### Response-stream deduplication (`log_parser`, lines 71–77)

```
previously_seen = res[0][1]
res_final = res[0]
for r in res:
    if r[1] != previously_seen:
        previously_seen = r[1]
        res_final = np.hstack((res_final, r))
```
-/

/-- The body of the dedup loop: `prev` is `previously_seen`; an event is
appended exactly when its trial index differs from `prev`, which is then
updated. -/
def dedupLoop (prev : Int) : List Event → List Event
  | [] => []
  | r :: rest =>
      if r.trial ≠ prev then r :: dedupLoop r.trial rest
      else dedupLoop prev rest

/-- `res_final` as computed by `log_parser`: seeded with `res[0]`, then the
loop runs over the whole stream (the first event is skipped by the loop
because its trial equals the seed). -/
def res_dedup (res : List Event) : List Event :=
  match res with
  | [] => []
  | r0 :: _ => r0 :: dedupLoop r0.trial res

/-- Helper for `dedupFirstSeen`: drop events whose trial is in `seen`. -/
def dedupFirstSeenAux (seen : List Int) : List Event → List Event
  | [] => []
  | r :: rest =>
      if seen.contains r.trial then dedupFirstSeenAux seen rest
      else r :: dedupFirstSeenAux (r.trial :: seen) rest

/-- Deduplication as the claim words it: discard every later event whose
trial index was already seen anywhere earlier in the stream (global
first-occurrence filter, relative order preserved).  Stated only for
comparison against the implemented `res_dedup`. -/
def dedupFirstSeen (res : List Event) : List Event :=
  dedupFirstSeenAux [] res

/-! ### `log_parser` (lines 26–95)

The textual split into Picture/Response/Video lines is taken as given (the
three arguments).  The runtime error behaviour of the `np.genfromtxt` calls
and of the subsequent indexing is modelled explicitly:

* `np.genfromtxt` on zero data rows raises (`emptyData`);
* a single data row yields a 0-d array, so `res[0]` (line 72) and `pic[0]`
  (line 89) raise (`zeroDimIndex`);
* otherwise the check `pic[0][3] != 'MRI_start'` raises `ValueError`
  (`missingAnchor`), else the parser returns
  `(pic, res_final, vid, mri_start)` with `mri_start = res_final[0][4]`.

The checks appear in source execution order: pic parse, res parse, dedup
(`res[0]`), vid parse, `pic[0]`. -/
def logParser (pic res vid : List Event) :
    Except ParseErr (List Event × List Event × List Event × Int) :=
  if pic.isEmpty then .error .emptyData
  else if res.isEmpty then .error .emptyData
  else if res.length = 1 then .error .zeroDimIndex
  else
    let res_final := res_dedup res
    if vid.isEmpty then .error .emptyData
    else if pic.length = 1 then .error .zeroDimIndex
    else
      match pic, res_final with
      | p0 :: _, rf0 :: _ =>
          if p0.code ≠ "MRI_start" then .error .missingAnchor
          else .ok (pic, res_final, vid, rf0.time)
      | _, _ => .error .indexError

/-! ### `find_blocks` (lines 97–119) -/

/-- The accumulating loop of `find_blocks`: one `(block_number, block_name,
block_start)` triple appended per Video event, `block_start = (v[4] -
mri_start) / 10000.0`. -/
def find_blocks_loop (ms : Int) :
    List Event → List (Int × String × ℚ) → List ℚ →
    List (Int × String × ℚ) × List ℚ
  | [], blocks, onsets => (blocks, onsets)
  | v :: rest, blocks, onsets =>
      find_blocks_loop ms rest
        (blocks ++ [(v.trial, v.code, ((v.time - ms : Int) : ℚ) / 10000)])
        (onsets ++ [((v.time - ms : Int) : ℚ) / 10000])

/-- `find_blocks vid mri_start` returns the block list and the onset list. -/
def find_blocks (vid : List Event) (ms : Int) :
    List (Int × String × ℚ) × List ℚ :=
  find_blocks_loop ms vid [] []

/-! ### `find_ratings` (lines 121–239) -/

/-- `np.round`: round to the nearest integer, ties to even. -/
def npRound (q : ℚ) : Int :=
  let f := q.floor
  let r := q - f
  if r < 1/2 then f
  else if 1/2 < r then f + 1
  else if f % 2 = 0 then f else f + 1

/-- Whether `pat` starts `s` (character lists). -/
def listStarts : List Char → List Char → Bool
  | [], _ => true
  | _ :: _, [] => false
  | a :: as, b :: bs => a == b && listStarts as bs

/-- Whether `pat` occurs contiguously inside `s` (character lists). -/
def listHasSub (pat : List Char) : List Char → Bool
  | [] => pat.isEmpty
  | c :: rest => listStarts pat (c :: rest) || listHasSub pat rest

/-- The Python substring test `pat in s`. -/
def strContainsSub (pat s : String) : Bool :=
  listHasSub pat.toList s.toList

/-- Line 152: a Response event is a button press when its code contains
`"103"` or `"102"`. -/
def isButtonPush (s : Event) : Bool :=
  strContainsSub "103" s.code || strContainsSub "102" s.code

/-- Lines 230: `int(rating[-1])` — the last character of the code string,
decoded as a decimal digit.  `rating[-1]` of an empty string raises
`IndexError`; `int()` of a non-digit raises `ValueError`. -/
def decodeRating (s : String) : Except ParseErr Int :=
  match s.toList.getLast? with
  | none => .error .indexError
  | some c => if c.isDigit then .ok ((c.toNat - 48 : ℕ) : Int) else .error .valueError

/-- Lines 185–191: the rating string for position `i` — `picture_list[i]`,
falling back to `picture_list[-1]` on `IndexError`; when the picture list
is empty the fallback itself raises. -/
def ratingString (pl : List Event) (i : ℕ) : Except ParseErr String :=
  match pl.get? i with
  | some p => .ok p.code
  | none =>
      match pl.getLast? with
      | some p => .ok p.code
      | none => .error .indexError

/-- The rating value resolved at position `i` of the comparison set
(lines 185–191 and 226–230): the string lookup always runs (and can raise),
but at position 0 the value is then overwritten with the default 5; at
later positions the looked-up string is decoded via `int(rating[-1])`. -/
def resolvedRating (pl : List Event) (i : ℕ) : Except ParseErr Int :=
  if i = 0 then (ratingString pl i).map (fun _ => 5)
  else (ratingString pl i).bind decodeRating

/-- Lines 196–210: the elapsed-time delta for position `i`.  Position 0
uses `picture_list[0][4]/10000 - blk_start_time` (raising when the picture
list is empty); later positions use the difference of consecutive picture
times, falling back to the difference of consecutive response times when
`picture_list[i]` is out of range. -/
def deltaTime (rl pl : List Event) (bst : ℚ) (i : ℕ) : Except ParseErr ℚ :=
  if i = 0 then
    match pl.get? 0 with
    | some p0 => .ok ((p0.time : ℚ) / 10000 - bst)
    | none => .error .indexError
  else
    match pl.get? i, pl.get? (i - 1) with
    | some pi, some pim => .ok (((pi.time - pim.time : Int) : ℚ) / 10000)
    | _, _ =>
        match rl.get? i, rl.get? (i - 1) with
        | some ri, some rim => .ok (((ri.time - rim.time : Int) : ℚ) / 10000)
        | _, _ => .error .indexError

/-- Lines 175–183: `response_time`, the event time relative to the
acquisition start.  The source computes this value at every position but
never reads it afterwards; it is recorded here for completeness. -/
def response_time (e : Event) (ms : Int) : ℚ :=
  ((e.time - ms : Int) : ℚ) / 10000

/-- The main loop of `find_ratings` (lines 166–234), one step per position
of the comparison set `rl`; `prev` is `previous_rating` and `acc` the
ratings list built so far.  Each step appends the previous value
`np.round(delta_time / 2)` times (`np.arange` of a non-positive count is
empty); at position 0 the appended and retained value is the default 5. -/
def ratingsLoop (rl pl : List Event) (bst : ℚ) :
    List ℕ → Int → List Int → Except ParseErr (List Int)
  | [], _, acc => .ok acc
  | i :: rest, prev, acc =>
      match resolvedRating pl i, deltaTime rl pl bst i with
      | .error e, _ => .error e
      | .ok _, .error e => .error e
      | .ok v, .ok delta =>
          let n : ℕ := (npRound (delta / 2)).toNat
          let prevUsed := if i = 0 then 5 else prev
          ratingsLoop rl pl bst rest v (acc ++ List.replicate n prevUsed)

/-- Lines 135–140: `np.linspace` over the block's trial range raises when
the requested number of samples is negative. -/
def numSamplesOk (bs : Int) (be : Option Int) (lastTrial : Int) : Bool :=
  match be with
  | none => decide (0 ≤ lastTrial - bs + 1)
  | some e => decide (0 ≤ e - bs)

/-- Membership of a trial index in the block's trial list (the integers
produced by the `np.linspace` calls of lines 137 and 140). -/
def inBlockRange (bs : Int) (be : Option Int) (lastTrial : Int) (t : Int) : Bool :=
  match be with
  | none => decide (bs ≤ t) && decide (t ≤ lastTrial)
  | some e => decide (bs ≤ t) && decide (t ≤ e - 1)

/-- Lines 144–239 once the selected response list is known: the no-response
fallback, the button-press extraction, the comparison set
`[first] ++ button_pushes ++ [last]`, the picture filter over the shifted
trial list, and the rating loop.  Returns the ratings and
`len(button_pushes)`. -/
def find_ratings_core (sel pic : List Event) (bst : ℚ) :
    Except ParseErr (List Int × ℕ) :=
  match sel, sel.getLast? with
  | [], _ => .ok ([5], 0)
  | r0 :: _, some rN =>
      let pushes := sel.filter isButtonPush
      let rl := r0 :: (pushes ++ [rN])
      let tl2 := rl.map (fun r => r.trial + 1)
      let pl := pic.filter (fun s => tl2.contains s.trial)
      match ratingsLoop rl pl bst (List.range rl.length) 0 [] with
      | .error e => .error e
      | .ok tr => .ok (tr, pushes.length)
  | _ :: _, none => .error .indexError

/-- `find_ratings res pic blk_start blk_end mri_start blk_start_time`
(lines 121–239).  `res[-1]` on an empty response array raises; `ms` is
used only by the dead `response_time` computation and is retained for
interface fidelity. -/
def find_ratings (res pic : List Event) (bs : Int) (be : Option Int)
    (ms : Int) (bst : ℚ) : Except ParseErr (List Int × ℕ) :=
  match res.getLast? with
  | none => .error .indexError
  | some rlast =>
      if numSamplesOk bs be rlast.trial = false then .error .negLinspace
      else find_ratings_core
        (res.filter (fun s => inBlockRange bs be rlast.trial s.trial)) pic bst

/-! ### `match_lengths` (lines 283–291) and the length-matching step of
`process_behav_data` (lines 364–372) -/

/-- `np.linspace lo hi n`: `n` evenly spaced samples from `lo` to `hi`
(a single sample is just `lo`). -/
def linspace (lo hi : ℚ) (n : ℕ) : List ℚ :=
  match n with
  | 0 => []
  | 1 => [lo]
  | _ => List.ofFn (n := n) fun i => lo + (i : ℚ) * (hi - lo) / ((n : ℚ) - 1)

/-- Linear interpolation of `scipy.interpolate.interp1d` over the uniform
knots `0, 1, …, len(b)-1` with values `b`, evaluated at `x`: the segment
index is `⌊x⌋` clamped into `[0, len(b)-2]`. -/
def interp1d_eval (b : List ℚ) (x : ℚ) : ℚ :=
  let j : Int := max 0 (min x.floor ((b.length : Int) - 2))
  let jn : ℕ := j.toNat
  b.getD jn 0 + (x - (j : ℚ)) * (b.getD (jn + 1) 0 - b.getD jn 0)

/-- `match_lengths a b`: resample `b` to the length of `a` by linear
interpolation over the index domain of `b`.  `interp1d` requires at least
two data points, so a shorter `b` raises (`none`). -/
def match_lengths (a b : List ℚ) : Option (List ℚ) :=
  if b.length < 2 then none
  else some ((linspace 0 ((b.length - 1 : ℕ) : ℚ) a.length).map (interp1d_eval b))

/-- Lines 364–372 of `process_behav_data`: with at least one button press
the shorter of the two series is resampled to the longer one's length;
with zero button presses the subject trace is replaced by a constant
neutral trace of the reference length.  `none` models the `interp1d`
failure on a sub-2-point series. -/
def subj_gold_step (subj gold : List ℚ) (n_pushes : ℕ) :
    Option (List ℚ × List ℚ) :=
  if n_pushes ≠ 0 then
    if subj.length < gold.length then
      (match_lengths gold subj).map (fun s => (s, gold))
    else if gold.length < subj.length then
      (match_lengths subj gold).map (fun g => (subj, g))
    else some (subj, gold)
  else some (List.replicate gold.length 5, gold)

/-- Line 418: `n_pushes / duration / 60.0`, the button-press rate recorded
per retained block. -/
def buttonRate (n_pushes : ℕ) (duration : ℚ) : ℚ :=
  (n_pushes : ℚ) / duration / 60

/-! ### Stimulus-timing output (`main`, lines 700–707)

```
f1.write('{o:.2f}*{r:.2f},{p}:{d:.2f} '.format(...))
...
f1.write('\n')
```
-/

/-- Python `'{:.2f}'.format`: fixed-point rendering with exactly two
digits after the decimal point (nearest, ties to even). -/
def fmt2 (q : ℚ) : String :=
  let n : Int := npRound (q * 100)
  let sgn := if n < 0 then "-" else ""
  let m := n.natAbs
  sgn ++ toString (m / 100) ++ "." ++
    String.mk [Nat.digitChar (m / 10 % 10), Nat.digitChar (m % 10)]

/-- Ten to an integer power, as a rational. -/
def tenPow (s : Int) : ℚ :=
  if 0 ≤ s then ((10 ^ s.toNat : ℕ) : ℚ) else 1 / ((10 ^ (-s).toNat : ℕ) : ℚ)

/-- Number of decimal digits of a natural number. -/
def digitLen (n : ℕ) : ℕ :=
  (toString n).length

/-- The decimal exponent of a positive rational: the unique `e` with
`10 ^ e ≤ a < 10 ^ (e + 1)`, located from the digit counts of numerator
and denominator. -/
def decExp (a : ℚ) : Int :=
  let e0 : Int := (digitLen a.num.toNat : Int) - (digitLen a.den : Int)
  if tenPow e0 ≤ a then e0 else e0 - 1

/-- Python 2 `str()` of a float, i.e. C `%.12g`: round to 12 significant
digits, strip trailing zeros, use fixed notation for decimal exponents in
`[-4, 12)` and exponent notation otherwise, and append `.0` when the
result would look integral. -/
def pyFloatStr (q : ℚ) : String :=
  if q = 0 then "0.0"
  else
    let sgn := if q < 0 then "-" else ""
    let a : ℚ := if q < 0 then -q else q
    let e : Int := decExp a
    let m : Int := npRound (a * tenPow (11 - e))
    let me : Int × Int :=
      if ((10 ^ 12 : ℕ) : Int) ≤ m then (m / 10, e + 1) else (m, e)
    let ds := (toString me.1.toNat).toList
    let ds := (ds.reverse.dropWhile (fun c => c = '0')).reverse
    let expoStr :=
      String.mk (ds.take 1) ++
        (if ds.length ≤ 1 then "" else "." ++ String.mk (ds.drop 1)) ++
        "e" ++ (if 0 ≤ me.2 then "+" else "") ++ toString me.2
    let body :=
      if me.2 < 0 then
        if -4 ≤ me.2 then
          "0." ++ String.mk (List.replicate (-me.2 - 1).toNat '0' ++ ds)
        else expoStr
      else
        if me.2 < 12 then
          let k := me.2.toNat + 1
          let intPart := ds.take k ++ List.replicate (k - ds.length) '0'
          let fracPart := ds.drop k
          String.mk intPart ++
            (if fracPart.isEmpty then "" else "." ++ String.mk fracPart)
        else expoStr
    let body := if body.toList.contains '.' then body else body ++ ".0"
    sgn ++ body

/-- One stimulus-timing event token, line 701: onset, correlation and
duration through `{:.2f}`, the button-press rate through plain `{}`
(Python `str`). -/
def emitToken (o r p d : ℚ) : String :=
  fmt2 o ++ "*" ++ fmt2 r ++ "," ++ pyFloatStr p ++ ":" ++ fmt2 d

/-- One run's stimulus-timing line, lines 700–707: each event token is
followed by a space, and the line ends with a newline. -/
def stimLine (evts : List (ℚ × ℚ × ℚ × ℚ)) : String :=
  String.join (evts.map (fun e => emitToken e.1 e.2.1 e.2.2.1 e.2.2.2 ++ " "))
    ++ "\n"

/-- Digits of a character list read as a natural number. -/
def natOfDigits (l : List Char) : ℕ :=
  l.foldl (fun a c => a * 10 + (c.toNat - 48)) 0

/-- Modelled from the spec: the repository contains no reader for the
stimulus-timing tokens (they are consumed downstream by AFNI's
`-stim_times_AM2`); per the spec a token `<onset>*<correlation>,<rate>:
<duration>` splits on the literal separators and each field reads back as
a decimal number.  Parses one decimal field. -/
def parseDec (s : String) : Option ℚ :=
  let l := s.toList
  let sl : ℚ × List Char := match l with
    | '-' :: r => (-1, r)
    | _ => (1, l)
  let ip := sl.2.takeWhile Char.isDigit
  let rest := sl.2.dropWhile Char.isDigit
  if ip.isEmpty then none
  else
    match rest with
    | [] => some (sl.1 * (natOfDigits ip : ℚ))
    | '.' :: fr =>
        if fr.isEmpty ∨ ¬ fr.all Char.isDigit then none
        else some (sl.1 * ((natOfDigits ip : ℚ) +
          (natOfDigits fr : ℚ) / ((10 ^ fr.length : ℕ) : ℚ)))
    | _ => none

/-- Splits a character list on a separator character. -/
def splitOnChar (sep : Char) : List Char → List (List Char)
  | [] => [[]]
  | c :: rest =>
      match splitOnChar sep rest with
      | [] => [[]]
      | g :: gs => if c = sep then [] :: g :: gs else (c :: g) :: gs

/-- Modelled from the spec: split one stimulus-timing token on `*`, `,`
and `:` and parse the four decimal fields. -/
def parseToken (s : String) : Option (ℚ × ℚ × ℚ × ℚ) :=
  match splitOnChar '*' s.toList with
  | [o, rest] =>
      match splitOnChar ',' rest with
      | [r, rest2] =>
          match splitOnChar ':' rest2 with
          | [p, d] =>
              match parseDec (String.mk o), parseDec (String.mk r),
                    parseDec (String.mk p), parseDec (String.mk d) with
              | some vo, some vr, some vp, some vd => some (vo, vr, vp, vd)
              | _, _, _, _ => none
          | _ => none
      | _ => none
  | _ => none

/-! ### The orchestration loop of `main` (lines 635–716)

The batch loop is modelled by its control-flow skeleton.  Per subject, the
source catches a `ValueError` from `process_functional_data` (`continue`),
catches a listing failure for the behavioural logs (`continue`), and then
runs `process_behav_data` on every log with **no** surrounding handler, so
any exception it raises propagates out of `main`.  `process_behav_data`'s
first step is `log_parser` (line 327); its parse failures stand in for the
per-log failure mode here. -/

/-- The three typed event collections of one behavioural log file. -/
structure LogData where
  pic : List Event
  res : List Event
  vid : List Event
deriving DecidableEq, Repr

/-- One subject as seen by `main`: the guard outcomes of lines 657–680 and
the behavioural logs. -/
structure Subject where
  name : String
  isPhantom : Bool
  hasCompleteFlag : Bool
  funcDataOk : Bool
  behavListOk : Bool
  logs : List LogData
deriving DecidableEq, Repr

/-- The per-subject log loop (lines 692–707): processes logs left to
right; the first log whose parse raises stops everything (the exception
propagates), returning the labels of the logs fully processed before it
and the error. -/
def processLogs (subname : String) : List LogData → ℕ → List String × Option ParseErr
  | [], _ => ([], none)
  | l :: rest, k =>
      match logParser l.pic l.res l.vid with
      | .ok _ =>
          let t := processLogs subname rest (k + 1)
          ((subname ++ "-log" ++ toString k) :: t.1, t.2)
      | .error e => ([], some e)

/-- The batch loop of `main` (lines 655–716): phantom subjects, already
complete subjects, functional-data failures and behavioural-listing
failures are skipped with `continue`; a per-log exception from the
behavioural loop propagates and terminates the whole batch.  Returns the
labels of the logs processed before termination, and the terminating
error if any. -/
def mainBatch : List Subject → List String × Option ParseErr
  | [] => ([], none)
  | s :: rest =>
      if s.isPhantom then mainBatch rest
      else if s.hasCompleteFlag then mainBatch rest
      else if s.funcDataOk = false then mainBatch rest
      else if s.behavListOk = false then mainBatch rest
      else
        match processLogs s.name s.logs 0 with
        | (done, none) =>
            let t := mainBatch rest
            (done ++ t.1, t.2)
        | (done, some e) => (done, some e)

/-! ### The claim's reading of the per-position rating lookup (for
comparison with `resolvedRating`) -/

/-- Modelled from the claim's words (C5): at position `i > 0` of the
comparison set `rl`, the value comes from the Picture event whose trial
index equals the response's trial index plus 1, falling back to the last
available Picture event; position 0 is the neutral default 5. -/
def claimResolvedValue (pic rl : List Event) (i : ℕ) : Except ParseErr Int :=
  if i = 0 then .ok 5
  else
    match rl.get? i with
    | none => .error .indexError
    | some r =>
        match pic.find? (fun p => p.trial == r.trial + 1) with
        | some p => decodeRating p.code
        | none =>
            match pic.getLast? with
            | some p => decodeRating p.code
            | none => .error .indexError

/-! ## Helper lemmas -/

/-- The dedup loop (seeded with `t`) computes exactly the adjacent-distinct
compression of the trial sequence: `destutter'` with the relation `≠`. -/
theorem dedupLoop_map_trial (l : List Event) :
    ∀ t : Int, t :: (dedupLoop t l).map Event.trial =
      List.destutter' (· ≠ ·) t (l.map Event.trial) := by
  induction l with
  | nil => intro t; simp [dedupLoop, List.destutter'_nil]
  | cons r rs ih =>
      intro t
      rw [List.map_cons, List.destutter'_cons]
      by_cases h : r.trial = t
      · rw [if_neg (by simp [h])]
        rw [show dedupLoop t (r :: rs) = dedupLoop t rs by simp [dedupLoop, h]]
        exact ih t
      · rw [if_pos (Ne.symm h)]
        rw [show dedupLoop t (r :: rs) = r :: dedupLoop r.trial rs by
          simp [dedupLoop, h]]
        rw [List.map_cons, ← ih r.trial]

/-- The implemented deduplication is adjacent-run compression of the trial
sequence. -/
theorem res_dedup_map_trial (res : List Event) :
    (res_dedup res).map Event.trial =
      (res.map Event.trial).destutter (· ≠ ·) := by
  cases res with
  | nil => rfl
  | cons r0 rs =>
      show (r0 :: dedupLoop r0.trial (r0 :: rs)).map Event.trial = _
      have hskip : dedupLoop r0.trial (r0 :: rs) = dedupLoop r0.trial rs := by
        simp [dedupLoop]
      rw [hskip, List.map_cons, dedupLoop_map_trial, List.map_cons]
      rfl

/-- `find_blocks_loop` appends one block triple and one onset per Video
event, in order. -/
theorem find_blocks_loop_eq (ms : Int) :
    ∀ (vid : List Event) (bacc : List (Int × String × ℚ)) (oacc : List ℚ),
      find_blocks_loop ms vid bacc oacc =
        (bacc ++ vid.map (fun v =>
            (v.trial, v.code, ((v.time - ms : Int) : ℚ) / 10000)),
         oacc ++ vid.map (fun v => ((v.time - ms : Int) : ℚ) / 10000)) := by
  intro vid
  induction vid with
  | nil => intro bacc oacc; simp [find_blocks_loop]
  | cons v rest ih => intro bacc oacc; simp [find_blocks_loop, ih]

/-! ## Concrete fixture events used by witnesses and counterexamples -/

/-- Response, trial 1, a button press (code contains `"102"`). -/
def evR1 : Event := ⟨"s", 1, "Response", "102", 10000, 0, 0⟩

/-- Response, trial 3, an MRI trigger (code `"104"`, not a button press). -/
def evR3 : Event := ⟨"s", 3, "Response", "104", 30000, 0, 0⟩

/-- Picture, trial 2, rating value 7. -/
def evP2 : Event := ⟨"s", 2, "Picture", "rating7", 15000, 0, 0⟩

/-- Picture, trial 4, rating value 3. -/
def evP4 : Event := ⟨"s", 4, "Picture", "rating3", 35000, 0, 0⟩

/-- The anchor Picture event. -/
def evAnchor : Event := ⟨"s", 1, "Picture", "MRI_start", 500, 0, 0⟩

/-- A second Picture event (so the Picture array is not 0-d). -/
def evPicB : Event := ⟨"s", 5, "Picture", "rating5", 45000, 0, 0⟩

/-- A Picture event whose code is not the anchor sentinel. -/
def evNoAnchor : Event := ⟨"s", 1, "Picture", "fixation", 500, 0, 0⟩

/-- Video event at tick 3000 (block `vid_1`). -/
def evVid : Event := ⟨"s", 4, "Video", "vid_1", 3000, 0, 0⟩

/-- Response events with trial indices 1, 2, 1 (an index recurring after an
intervening different index). -/
def evA1 : Event := ⟨"s", 1, "Response", "104", 100, 0, 0⟩

/-- Second event of the 1, 2, 1 stream. -/
def evB2 : Event := ⟨"s", 2, "Response", "104", 200, 0, 0⟩

/-- Third event of the 1, 2, 1 stream: trial index 1 again. -/
def evC1 : Event := ⟨"s", 1, "Response", "104", 300, 0, 0⟩

/-- Events with trial indices 1, 1, 1, 2, 2, 3 (the spec's dedup example). -/
def evDup : List Event :=
  [⟨"s", 1, "Response", "104", 100, 0, 0⟩, ⟨"s", 1, "Response", "104", 110, 0, 0⟩,
   ⟨"s", 1, "Response", "104", 120, 0, 0⟩, ⟨"s", 2, "Response", "104", 130, 0, 0⟩,
   ⟨"s", 2, "Response", "104", 140, 0, 0⟩, ⟨"s", 3, "Response", "104", 150, 0, 0⟩]

/-! ## Claim C1: Response-stream deduplication -/

/-- C1, counterexample: the claim says every later event whose trial index
was seen anywhere earlier is discarded, so the stream with trial indices
`[1, 2, 1]` would deduplicate to `[1, 2]`; the implementation only removes
adjacent repeats and keeps all three events. -/
theorem claim_C1_counterexample :
    res_dedup [evA1, evB2, evC1] = [evA1, evB2, evC1] ∧
    dedupFirstSeen [evA1, evB2, evC1] = [evA1, evB2] ∧
    res_dedup [evA1, evB2, evC1] ≠ dedupFirstSeen [evA1, evB2, evC1] := by
  refine ⟨by decide, by decide, by decide⟩

/-- C1, amended: the deduplication keeps the first event of each maximal
run of consecutive events sharing a trial index (`destutter` with `≠` on
the trial sequence) — so `[1,1,1,2,2,3]` still deduplicates to `[1,2,3]`
in order, but an index recurring after an intervening different index is
retained again. -/
theorem claim_C1_dedup :
    (∀ res : List Event, (res_dedup res).map Event.trial =
        (res.map Event.trial).destutter (· ≠ ·)) ∧
    (res_dedup evDup).map Event.trial = [1, 2, 3] ∧
    (evDup.map Event.trial = [1, 1, 1, 2, 2, 3]) := by
  refine ⟨res_dedup_map_trial, by decide, by decide⟩

/-! ## Claim C7: block segmentation -/

unseal Rat.mul Rat.inv Rat.add Rat.sub in
/-- C7: `find_blocks` produces exactly one block per Video event, in log
order with no filtering, with relative start `(time - anchor) / 10000`
seconds; in particular an anchor at tick 1000 and a Video event at tick
3000 give a block start of 0.20 s. -/
theorem claim_C7_blocks :
    (∀ (vid : List Event) (ms : Int),
      (find_blocks vid ms).1 = vid.map (fun v =>
          (v.trial, v.code, ((v.time - ms : Int) : ℚ) / 10000)) ∧
      (find_blocks vid ms).2 = vid.map (fun v =>
          ((v.time - ms : Int) : ℚ) / 10000) ∧
      (find_blocks vid ms).1.length = vid.length) ∧
    (find_blocks [evVid] 1000).2 = [1/5] := by
  constructor
  · intro vid ms
    have h := find_blocks_loop_eq ms vid [] []
    rw [find_blocks, h]
    simp
  · decide

/-! ## Claim C10: degenerate Response stream -/

/-- C10: with fewer than two Response lines the parser raises during
response parsing (`np.genfromtxt` on no rows) or deduplication (indexing
the 0-d single-row array), even when an anchor Picture event is present. -/
theorem claim_C10_precondition (pc : Event) (pic' res vid : List Event)
    (hanchor : pc.code = "MRI_start") (hlen : res.length < 2) :
    ∃ e, logParser (pc :: pic') res vid = .error e ∧
      (e = ParseErr.emptyData ∨ e = ParseErr.zeroDimIndex) := by
  match res with
  | [] => exact ⟨.emptyData, by simp [logParser], Or.inl rfl⟩
  | [r] => exact ⟨.zeroDimIndex, by simp [logParser], Or.inr rfl⟩
  | a :: b :: t => simp at hlen; omega

/-- C10, witness: a log with the anchor present and a single Response line
raises with the 0-d indexing error. -/
theorem claim_C10_witness :
    ∃ e, logParser [evAnchor, evP2] [evR1] [evVid] = .error e ∧
      (e = ParseErr.emptyData ∨ e = ParseErr.zeroDimIndex) :=
  claim_C10_precondition evAnchor [evP2] [evR1] [evVid] (by decide) (by decide)

/-! ## Claim C3: the anchor check -/

/-- C3: on a non-degenerate log (at least two Picture and two Response
rows, at least one Video row), the parser raises if and only if the first
Picture event's code is not `"MRI_start"`; on success the anchor equals
the time of the first event of the deduplicated Response stream (which is
the first Response event), and every block start time is
`(time - anchor) / 10000` relative to that anchor. -/
theorem claim_C3_anchor (p0 p1 r0 r1 v0 : Event) (pic' res' vid' : List Event) :
    ((∃ out, logParser (p0 :: p1 :: pic') (r0 :: r1 :: res') (v0 :: vid') =
        .ok out) ↔ p0.code = "MRI_start") ∧
    (∀ P R V a,
      logParser (p0 :: p1 :: pic') (r0 :: r1 :: res') (v0 :: vid') =
        .ok (P, R, V, a) →
      R = res_dedup (r0 :: r1 :: res') ∧
      (∃ h : R ≠ [], a = (R.head h).time) ∧ a = r0.time ∧
      (find_blocks (v0 :: vid') a).2 =
        (v0 :: vid').map (fun v => ((v.time - a : Int) : ℚ) / 10000)) := by
  have hdedup : res_dedup (r0 :: r1 :: res') =
      r0 :: dedupLoop r0.trial (r0 :: r1 :: res') := rfl
  have hred : logParser (p0 :: p1 :: pic') (r0 :: r1 :: res') (v0 :: vid') =
      if p0.code ≠ "MRI_start" then .error .missingAnchor
      else .ok (p0 :: p1 :: pic', res_dedup (r0 :: r1 :: res'), v0 :: vid',
        r0.time) := rfl
  constructor
  · constructor
    · rintro ⟨out, hout⟩
      rw [hred] at hout
      by_contra hcode
      rw [if_pos hcode] at hout
      exact Except.noConfusion hout
    · intro hcode
      exact ⟨_, by rw [hred, if_neg (by simp [hcode])]⟩
  · intro P R V a heq
    rw [hred] at heq
    by_cases hcode : p0.code = "MRI_start"
    · rw [if_neg (by simp [hcode])] at heq
      cases heq
      refine ⟨rfl, ⟨?_, ?_⟩, rfl, ?_⟩
      · rw [hdedup]; exact List.cons_ne_nil _ _
      · rfl
      · have h := find_blocks_loop_eq r0.time (v0 :: vid') [] []
        rw [find_blocks, h]; simp
    · rw [if_pos hcode] at heq
      exact Except.noConfusion heq

/-- C3, witness: a concrete well-formed log parses, and its anchor is the
first Response event's time with block starts relative to it. -/
theorem claim_C3_witness :
    [evR1, evR3] = res_dedup [evR1, evR3] ∧
    (∃ h : [evR1, evR3] ≠ [], (10000 : Int) = (([evR1, evR3]).head h).time) ∧
    (10000 : Int) = evR1.time ∧
    (find_blocks [evVid] 10000).2 =
      [evVid].map (fun v => ((v.time - 10000 : Int) : ℚ) / 10000) :=
  (claim_C3_anchor evAnchor evP2 evR1 evR3 evVid [] [] []).2
    [evAnchor, evP2] [evR1, evR3] [evVid] 10000 (by decide)

/-! ## Claim C2: batch-level error handling -/

/-- A log whose first Picture event is not the anchor (parse raises). -/
def badLog : LogData := ⟨[evNoAnchor, evP2], [evR1, evR3], [evVid]⟩

/-- A well-formed log (parse succeeds). -/
def goodLog : LogData := ⟨[evAnchor, evP2], [evR1, evR3], [evVid]⟩

/-- Subject A, whose only behavioural log fails to parse. -/
def subjA : Subject := ⟨"A", false, false, true, true, [badLog]⟩

/-- Subject B, whose only behavioural log parses fine. -/
def subjB : Subject := ⟨"B", false, false, true, true, [goodLog]⟩

/-- C2, code evaluated at the failing input: subject A's missing-anchor
parse failure propagates out of the per-log loop (which has no handler)
and terminates the batch — subject B's log is never processed, although
it would have been processed had the batch continued (second conjunct). -/
theorem claim_C2_batch_abort :
    mainBatch [subjA, subjB] = ([], some ParseErr.missingAnchor) ∧
    mainBatch [subjB] = (["B-log0"], none) := by
  refine ⟨by decide, by decide⟩

/-! ## Claim C6: stimulus-timing token format -/

unseal Rat.mul Rat.inv Rat.add Rat.sub in
/-- C6, counterexample: the button-press rate field is written with plain
`{}` (Python `str`), not `{:.2f}`; for a rate of 0.5 the emitted token is
`12.34*0.56,0.5:8.00`, which differs from the all-two-decimal rendering
`12.34*0.56,0.50:8.00` the claim asserts. -/
theorem claim_C6_counterexample :
    emitToken (1234/100) (56/100) (1/2) 8 = "12.34*0.56,0.5:8.00" ∧
    emitToken (1234/100) (56/100) (1/2) 8 ≠
      fmt2 (1234/100) ++ "*" ++ fmt2 (56/100) ++ "," ++ fmt2 (1/2) ++ ":" ++
        fmt2 8 := by
  refine ⟨by decide, by decide⟩

unseal Rat.mul Rat.inv Rat.add Rat.sub in
/-- C6, amended: onset, correlation and duration are rendered to exactly
two decimal places; the button-press rate is rendered with Python's
default float formatting (`%.12g`, trailing zeros stripped, not padded);
events are space-separated on one newline-terminated line per run; and
the spec's example token `12.34*0.56,0.10:8.00` (as well as a really
emitted token) parses back to its four values. -/
theorem claim_C6_format :
    (∀ q : ℚ, ∃ a b, fmt2 q = a ++ "." ++ b ∧ b.length = 2) ∧
    parseToken "12.34*0.56,0.10:8.00" = some (1234/100, 56/100, 1/10, 8) ∧
    emitToken (1234/100) (56/100) (1/10) 8 = "12.34*0.56,0.1:8.00" ∧
    parseToken (emitToken (1234/100) (56/100) (1/10) 8) =
      some (1234/100, 56/100, 1/10, 8) ∧
    stimLine [(1234/100, 56/100, 1/10, 8)] = "12.34*0.56,0.1:8.00 \n" := by
  refine ⟨?_, by decide, by decide, by decide, by decide⟩
  intro q
  simp only [fmt2]
  exact ⟨_, _, rfl, rfl⟩

/-! ## Claim C4: no-response / no-button-press fallback -/

/-- C4: when the block's selected Response set is empty, `find_ratings`
returns the single-sample neutral trace and a zero count; when the
selected set has no button presses, the returned count is 0; and whenever
the count is 0, the subject trace entering the correlation is replaced by
a constant trace of 5 with the reference series' length, the button-press
rate is 0, and the replacement step cannot fail. -/
theorem claim_C4_fallback (res pic : List Event) (bs : Int) (be : Option Int)
    (ms : Int) (bst : ℚ) (rlast : Event) (subj gold : List ℚ) (dur : ℚ)
    (hlast : res.getLast? = some rlast)
    (hnum : numSamplesOk bs be rlast.trial = true)
    (hsel : res.filter (fun s => inBlockRange bs be rlast.trial s.trial) = []) :
    find_ratings res pic bs be ms bst = .ok ([5], 0) ∧
    subj_gold_step subj gold 0 = some (List.replicate gold.length 5, gold) ∧
    (List.replicate gold.length (5 : ℚ)).length = gold.length ∧
    buttonRate 0 dur = 0 ∧
    (subj_gold_step subj gold 0).isSome = true ∧
    (∀ sel2 tr n, sel2.filter isButtonPush = [] →
      find_ratings_core sel2 pic bst = .ok (tr, n) → n = 0) := by
  refine ⟨?_, ?_, ?_, ?_, ?_, ?_⟩
  · simp only [find_ratings, hlast, hnum, hsel]
    rfl
  · simp [subj_gold_step]
  · exact List.length_replicate _ _
  · simp [buttonRate]
  · simp [subj_gold_step]
  · intro sel2 tr n hpush hcore
    match sel2 with
    | [] =>
        simp only [find_ratings_core] at hcore
        exact (Prod.mk.injEq _ _ _ _ ▸ (Except.ok.injEq _ _).mp hcore).2.symm
    | a :: t =>
        cases hg : (a :: t).getLast? with
        | none => simp [List.getLast?_eq_none_iff] at hg
        | some x =>
            simp only [find_ratings_core, hg, hpush] at hcore
            cases hloop : ratingsLoop (a :: ([] ++ [x]))
                ((pic.filter (fun s =>
                  ((a :: ([] ++ [x])).map (fun r => r.trial + 1)).contains
                    s.trial))) bst
                (List.range (a :: ([] ++ [x])).length) 0 [] with
            | error e => rw [hloop] at hcore; exact Except.noConfusion hcore
            | ok tr2 =>
                rw [hloop] at hcore
                exact ((Prod.mk.injEq _ _ _ _ ▸
                  (Except.ok.injEq _ _).mp hcore).2).symm

/-- C4, witness: block trial range `[10, 10)` selects no responses; the
fallback values appear concretely. -/
theorem claim_C4_witness :
    find_ratings [evR1, evR3] [evP2, evP4] 10 (some 10) 0 0 = .ok ([5], 0) ∧
    subj_gold_step [1, 2] [3, 4, 5] 0 =
      some (List.replicate ([3, 4, 5] : List ℚ).length 5, [3, 4, 5]) ∧
    (List.replicate ([3, 4, 5] : List ℚ).length (5 : ℚ)).length =
      ([3, 4, 5] : List ℚ).length ∧
    buttonRate 0 8 = 0 ∧
    (subj_gold_step [1, 2] [3, 4, 5] 0).isSome = true ∧
    (∀ sel2 tr n, sel2.filter isButtonPush = [] →
      find_ratings_core sel2 [evP2, evP4] 0 = .ok (tr, n) → n = 0) :=
  claim_C4_fallback [evR1, evR3] [evP2, evP4] 10 (some 10) 0 0 evR3
    [1, 2] [3, 4, 5] 8 (by decide) (by decide) (by decide)

/-! ## Claim C5: per-position rating resolution -/

unseal Rat.mul Rat.inv Rat.add Rat.sub in
/-- C5, counterexample: with responses at trials 1 (a button press) and 3,
the comparison set is `[r1, r1, r3]` and the filtered picture list is
`[p2, p4]` (trials 2 and 4).  At position 1 the response's trial index
plus 1 is 2, whose Picture (`p2`) carries rating 7 — but the code indexes
the filtered picture list by *position* and reads `p4`, rating 3.  The
full reconstruction returns a trace ending in 3, not 7. -/
theorem claim_C5_counterexample :
    ([evR1, evR3].filter (fun s => inBlockRange 1 none 3 s.trial) =
      [evR1, evR3]) ∧
    ([evR1, evR3].filter isButtonPush = [evR1]) ∧
    ([evR1, evR1, evR3].map (fun r => r.trial + 1) = [2, 2, 4]) ∧
    ([evP2, evP4].filter (fun s =>
      ([evR1, evR1, evR3].map (fun r => r.trial + 1)).contains s.trial) =
      [evP2, evP4]) ∧
    resolvedRating [evP2, evP4] 1 = .ok 3 ∧
    claimResolvedValue [evP2, evP4] [evR1, evR1, evR3] 1 = .ok 7 ∧
    (Except.ok 3 : Except ParseErr Int) ≠ .ok 7 ∧
    find_ratings [evR1, evR3] [evP2, evP4] 1 none 0 0 = .ok ([5, 5, 3], 1) := by
  refine ⟨by decide, by decide, by decide, by decide, by decide, by decide,
    by decide, by decide⟩

/-- C5, amended: position 0 resolves to the neutral 5 (provided the
filtered picture list is non-empty — the lookup still runs and raises on
an empty list); a later position `i` reads the `i`-th entry of the
position-filtered picture list, falling back to that list's last entry
when `i` is out of range; the trial-index+1 lookup of the claim coincides
with this only when the filtered list aligns positionally with the
comparison set. -/
theorem claim_C5_resolution (pic rl pl : List Event) :
    (pl ≠ [] → resolvedRating pl 0 = .ok 5) ∧
    (∀ i p, 0 < i → pl.get? i = some p →
      resolvedRating pl i = decodeRating p.code) ∧
    (∀ i q, 0 < i → pl.get? i = none → pl.getLast? = some q →
      resolvedRating pl i = decodeRating q.code) ∧
    (∀ i r p, 0 < i → rl.get? i = some r → pl.get? i = some p →
      pic.find? (fun x => x.trial == r.trial + 1) = some p →
      claimResolvedValue pic rl i = resolvedRating pl i) := by
  refine ⟨?_, ?_, ?_, ?_⟩
  · intro hne
    match pl, hne with
    | q :: t, _ => rfl
  · intro i p hi hget
    simp only [resolvedRating, ratingString, hget, Nat.pos_iff_ne_zero.mp hi,
      if_false]
    rfl
  · intro i q hi hget hlast
    simp only [resolvedRating, ratingString, hget, hlast,
      Nat.pos_iff_ne_zero.mp hi, if_false]
    rfl
  · intro i r p hi hr hp hfind
    have h1 : resolvedRating pl i = decodeRating p.code := by
      simp only [resolvedRating, ratingString, hp, Nat.pos_iff_ne_zero.mp hi,
        if_false]
      rfl
    have h2 : claimResolvedValue pic rl i = decodeRating p.code := by
      simp only [claimResolvedValue, Nat.pos_iff_ne_zero.mp hi, if_false,
        hr, hfind]
    rw [h1, h2]

/-- C5, witness: the amended resolution evaluated on the counterexample's
filtered picture list. -/
theorem claim_C5_witness :
    resolvedRating [evP2, evP4] 0 = .ok 5 ∧
    resolvedRating [evP2, evP4] 1 = decodeRating evP4.code ∧
    resolvedRating [evP2, evP4] 5 = decodeRating evP4.code ∧
    claimResolvedValue [evP2, evP4] [evR1, evR3] 1 =
      resolvedRating [evP2, evP4] 1 :=
  ⟨(claim_C5_resolution [evP2, evP4] [evR1, evR3] [evP2, evP4]).1 (by decide),
   (claim_C5_resolution [evP2, evP4] [evR1, evR3] [evP2, evP4]).2.1 1 evP4
     (by decide) (by decide),
   (claim_C5_resolution [evP2, evP4] [evR1, evR3] [evP2, evP4]).2.2.1 5 evP4
     (by decide) (by decide) (by decide),
   (claim_C5_resolution [evP2, evP4] [evR1, evR3] [evP2, evP4]).2.2.2 1 evR3
     evP4 (by decide) (by decide) (by decide) (by decide)⟩

/-! ## Claim C8: resampling to equal length is the identity -/

/-- Bridge between the executable `Rat.floor` and `Int.floor`. -/
theorem rat_floor_eq_floor (q : ℚ) : q.floor = ⌊q⌋ := by
  rw [Rat.floor_def', ← Rat.floor_def]

/-- `np.linspace 0 (n-1) n` is just `0, 1, …, n-1`. -/
theorem linspace_self (n : ℕ) (h : 2 ≤ n) :
    linspace 0 ((n - 1 : ℕ) : ℚ) n = List.ofFn (n := n) (fun i => (i : ℚ)) := by
  obtain ⟨k, rfl⟩ : ∃ k, n = k + 2 := ⟨n - 2, by omega⟩
  show List.ofFn _ = _
  congr 1
  funext i
  have hne : (k : ℚ) + 1 ≠ 0 := by positivity
  simp only [show k + 2 - 1 = k + 1 from rfl]
  push_cast
  rw [zero_add, sub_zero, show ((k : ℚ) + 2) - 1 = (k : ℚ) + 1 by ring,
    mul_div_assoc, div_self hne, mul_one]

/-- Evaluating the linear interpolant of `b` at an integer knot returns the
knot value. -/
theorem interp1d_eval_at_index (b : List ℚ) (h2 : 2 ≤ b.length)
    (i : Fin b.length) : interp1d_eval b ((i : ℕ) : ℚ) = b.get i := by
  have hfloor : (((i : ℕ) : ℚ)).floor = ((i : ℕ) : Int) := by
    rw [rat_floor_eq_floor]; exact_mod_cast Int.floor_natCast (i : ℕ)
  by_cases hi : (i : ℕ) ≤ b.length - 2
  · have hj : max 0 (min (((i : ℕ) : ℚ)).floor ((b.length : Int) - 2)) =
        ((i : ℕ) : Int) := by
      rw [hfloor]; omega
    have hjn : (((i : ℕ) : Int)).toNat = (i : ℕ) := by omega
    simp only [interp1d_eval, hj, hjn]
    have hgd : b.getD (i : ℕ) 0 = b.get i := by
      simp [List.getD_eq_getElem?_getD, List.getElem?_eq_getElem i.isLt]
    rw [hgd, Int.cast_natCast, sub_self, zero_mul, add_zero]
  · have hi1 : (i : ℕ) = b.length - 1 := by have := i.isLt; omega
    have hj : max 0 (min (((i : ℕ) : ℚ)).floor ((b.length : Int) - 2)) =
        (b.length : Int) - 2 := by
      rw [hfloor]; omega
    have hjn : ((b.length : Int) - 2).toNat = b.length - 2 := by omega
    simp only [interp1d_eval, hj, hjn]
    have hlen1 : b.length - 2 + 1 = b.length - 1 := by omega
    have hlt2 : b.length - 2 < b.length := by omega
    have hlt1 : b.length - 1 < b.length := by omega
    have hg2 : b.getD (b.length - 2) 0 = b[b.length - 2] := by
      simp [List.getD_eq_getElem?_getD, List.getElem?_eq_getElem hlt2]
    have hg1 : b.getD (b.length - 2 + 1) 0 = b[b.length - 1] := by
      rw [hlen1]
      simp [List.getD_eq_getElem?_getD, List.getElem?_eq_getElem hlt1]
    rw [hg2, hg1]
    have hcoef : (((i : ℕ) : ℚ)) - (((b.length : Int) - 2 : Int) : ℚ) = 1 := by
      rw [hi1]
      have : ((b.length - 1 : ℕ) : ℚ) = (b.length : ℚ) - 1 := by
        push_cast [Nat.cast_sub (by omega : 1 ≤ b.length)]; ring
      rw [this]
      push_cast
      ring
    rw [hcoef, one_mul]
    have hget : b.get i = b[b.length - 1] := by
      simp only [List.get_eq_getElem, hi1]
    rw [hget]
    ring

/-- C8: with at least one button press and equal lengths, the
length-matching step leaves both series unchanged; and more generally
`match_lengths` applied to a target of the series' own length is the
identity (for the at-least-two-point series `interp1d` accepts). -/
theorem claim_C8_resample_identity :
    (∀ (subj gold : List ℚ) (n : ℕ), n ≠ 0 → subj.length = gold.length →
      subj_gold_step subj gold n = some (subj, gold)) ∧
    (∀ a b : List ℚ, a.length = b.length → 2 ≤ b.length →
      match_lengths a b = some b) := by
  constructor
  · intro subj gold n hn hlen
    simp [subj_gold_step, hn, hlen]
  · intro a b hab h2
    rw [match_lengths, if_neg (by omega)]
    congr 1
    rw [hab, linspace_self b.length h2, List.map_ofFn]
    have : (interp1d_eval b ∘ fun i : Fin b.length => ((i : ℕ) : ℚ)) =
        fun i : Fin b.length => b.get i := by
      funext i
      exact interp1d_eval_at_index b h2 i
    rw [this, List.ofFn_get]

unseal Rat.mul Rat.inv Rat.add Rat.sub in
/-- C8, witness: equal-length series pass through unchanged, and
`match_lengths` on its own length is the identity on a concrete pair. -/
theorem claim_C8_witness :
    subj_gold_step [1, 2, 3] [4, 5, 6] 2 = some ([1, 2, 3], [4, 5, 6]) ∧
    match_lengths [1, 2, 3] [4, 5, 6] = some [4, 5, 6] :=
  ⟨claim_C8_resample_identity.1 [1, 2, 3] [4, 5, 6] 2 (by decide) (by decide),
   claim_C8_resample_identity.2 [1, 2, 3] [4, 5, 6] (by decide) (by decide)⟩

/-! ## Claim C9: rating-trace values lie in 0–10 -/

/-- A successfully decoded rating is a single decimal digit, so it lies in
`[0, 9]` (in particular in `[0, 10]`). -/
theorem decodeRating_bounds {s : String} {v : Int}
    (h : decodeRating s = .ok v) : 0 ≤ v ∧ v ≤ 10 := by
  unfold decodeRating at h
  cases hg : s.toList.getLast? with
  | none => rw [hg] at h; exact Except.noConfusion h
  | some c =>
      rw [hg] at h
      have h2 : (if c.isDigit = true then
          (Except.ok ((c.toNat - 48 : ℕ) : Int) : Except ParseErr Int)
        else .error .valueError) = .ok v := h
      by_cases hd : c.isDigit = true
      · rw [if_pos hd] at h2
        have hv : v = ((c.toNat - 48 : ℕ) : Int) := by
          cases h2; rfl
        have hle : c.toNat ≤ 57 := by
          simp only [Char.isDigit, Bool.and_eq_true, decide_eq_true_eq] at hd
          exact hd.2
        subst hv
        omega
      · rw [if_neg hd] at h2; exact Except.noConfusion h2

/-- A resolved rating is either the neutral 5 or a decoded code of one of
the filtered Picture events. -/
theorem resolvedRating_cases {pl : List Event} {i : ℕ} {v : Int}
    (h : resolvedRating pl i = .ok v) :
    v = 5 ∨ ∃ p ∈ pl, decodeRating p.code = .ok v := by
  unfold resolvedRating at h
  by_cases hi : i = 0
  · left
    rw [if_pos hi] at h
    cases hrs : ratingString pl i with
    | error e => rw [hrs] at h; exact Except.noConfusion h
    | ok s => rw [hrs] at h; cases h; rfl
  · right
    rw [if_neg hi] at h
    cases hrs : ratingString pl i with
    | error e => rw [hrs] at h; exact Except.noConfusion h
    | ok s =>
        rw [hrs] at h
        have hmem : ∃ p ∈ pl, p.code = s := by
          unfold ratingString at hrs
          cases hget : pl.get? i with
          | some p =>
              rw [hget] at hrs
              cases hrs
              exact ⟨p, List.get?_mem hget, rfl⟩
          | none =>
              rw [hget] at hrs
              cases hlast : pl.getLast? with
              | none => rw [hlast] at hrs; exact Except.noConfusion hrs
              | some p =>
                  rw [hlast] at hrs
                  cases hrs
                  exact ⟨p, List.mem_of_getLast?_eq_some hlast, rfl⟩
        obtain ⟨p, hp, hcode⟩ := hmem
        exact ⟨p, hp, by rw [hcode]; exact h⟩

/-- Invariant of the rating loop: starting from an in-range previous value
and an in-range accumulator, every value of a successful result is in
`[0, 10]`. -/
theorem ratingsLoop_bounds (rl pl : List Event) (bst : ℚ) :
    ∀ (steps : List ℕ) (prev : Int) (acc : List Int),
      0 ≤ prev → prev ≤ 10 → (∀ v ∈ acc, 0 ≤ v ∧ v ≤ 10) →
      ∀ tr, ratingsLoop rl pl bst steps prev acc = .ok tr →
      ∀ v ∈ tr, 0 ≤ v ∧ v ≤ 10 := by
  intro steps
  induction steps with
  | nil =>
      intro prev acc h0 h10 hacc tr h v hv
      cases h
      exact hacc v hv
  | cons i rest ih =>
      intro prev acc h0 h10 hacc tr h v hv
      unfold ratingsLoop at h
      cases hrr : resolvedRating pl i with
      | error e => rw [hrr] at h; exact Except.noConfusion h
      | ok w =>
          cases hdt : deltaTime rl pl bst i with
          | error e => rw [hrr, hdt] at h; exact Except.noConfusion h
          | ok delta =>
              rw [hrr, hdt] at h
              have hw : 0 ≤ w ∧ w ≤ 10 := by
                rcases resolvedRating_cases hrr with h5 | ⟨p, _, hdec⟩
                · subst h5; omega
                · exact decodeRating_bounds hdec
              refine ih w _ hw.1 hw.2 ?_ tr h v hv
              intro u hu
              rcases List.mem_append.mp hu with hu | hu
              · exact hacc u hu
              · have : u = if i = 0 then 5 else prev :=
                  List.eq_of_mem_replicate hu
                subst this
                by_cases hi : i = 0
                · simp [hi]
                · simp only [hi, if_false]
                  omega

/-- C9: every value of a successfully reconstructed rating trace is an
integer between 0 and 10 inclusive (each value is the neutral 5 or a
single digit decoded from a Picture code); this needs no assumption on
the Picture codes because a non-digit code makes the reconstruction raise
instead of returning. -/
theorem claim_C9_bounds (res pic : List Event) (bs : Int) (be : Option Int)
    (ms : Int) (bst : ℚ) (tr : List Int) (n : ℕ)
    (h : find_ratings res pic bs be ms bst = .ok (tr, n)) :
    ∀ v ∈ tr, 0 ≤ v ∧ v ≤ 10 := by
  unfold find_ratings at h
  cases hlast : res.getLast? with
  | none => rw [hlast] at h; exact Except.noConfusion h
  | some rlast =>
      rw [hlast] at h
      have h2 : (if numSamplesOk bs be rlast.trial = false then
          (Except.error ParseErr.negLinspace : Except ParseErr (List Int × ℕ))
        else find_ratings_core
          (res.filter (fun s => inBlockRange bs be rlast.trial s.trial))
          pic bst) = .ok (tr, n) := h
      clear h
      by_cases hnum : numSamplesOk bs be rlast.trial = false
      · rw [if_pos hnum] at h2; exact Except.noConfusion h2
      · rw [if_neg hnum] at h2
        rename' h2 => h
        unfold find_ratings_core at h
        cases hsel : res.filter (fun s => inBlockRange bs be rlast.trial s.trial) with
        | nil =>
            rw [hsel] at h
            cases h
            intro v hv
            cases List.mem_singleton.mp hv
            omega
        | cons a t =>
            rw [hsel] at h
            cases hg : (a :: t).getLast? with
            | none => simp [List.getLast?_eq_none_iff] at hg
            | some x =>
                rw [hg] at h
                have h3 : (match ratingsLoop
                      (a :: ((a :: t).filter isButtonPush ++ [x]))
                      (pic.filter (fun s =>
                        ((a :: ((a :: t).filter isButtonPush ++ [x])).map
                          (fun r => r.trial + 1)).contains s.trial)) bst
                      (List.range
                        (a :: ((a :: t).filter isButtonPush ++ [x])).length)
                      0 [] with
                    | Except.error e =>
                        (Except.error e : Except ParseErr (List Int × ℕ))
                    | Except.ok tr2 =>
                        Except.ok (tr2, ((a :: t).filter isButtonPush).length))
                    = Except.ok (tr, n) := h
                clear h
                cases hloop : ratingsLoop (a :: ((a :: t).filter isButtonPush ++ [x]))
                    (pic.filter (fun s =>
                      ((a :: ((a :: t).filter isButtonPush ++ [x])).map
                        (fun r => r.trial + 1)).contains s.trial)) bst
                    (List.range (a :: ((a :: t).filter isButtonPush ++ [x])).length)
                    0 [] with
                | error e => rw [hloop] at h3; exact Except.noConfusion h3
                | ok tr2 =>
                    rw [hloop] at h3
                    have htr : tr2 = tr := by
                      cases h3; rfl
                    subst htr
                    exact ratingsLoop_bounds _ _ bst _ 0 [] (by omega) (by omega)
                      (by intro v hv; cases hv) tr2 hloop

unseal Rat.mul Rat.inv Rat.add Rat.sub in
/-- C9, witness: the value 3 of the concrete reconstruction `[5, 5, 3]`
(from `find_ratings [evR1, evR3] [evP2, evP4] 1 none 0 0`) is in bounds. -/
theorem claim_C9_witness : 0 ≤ (3 : Int) ∧ (3 : Int) ≤ 10 :=
  claim_C9_bounds [evR1, evR3] [evP2, evP4] 1 none 0 0 [5, 5, 3] 1 (by decide)
    3 (by decide)

end DmProcEa
